import Mathlib

/-
Verification of the ssm-env tool (src/src/main.rs) against its
natural-language specification.

The program resolves AWS SSM parameters into environment variables and
launches a child process. We shallowly embed the program: the pure helper
functions (`Args::parameter_names`, `Args::export_names`, `filter_export`,
`filter_export_path`, `Export::from_str`) become Lean functions over the
same data, and the effectful `main` becomes `runMain`, a function from the
parsed arguments, an SSM-client oracle and a child-process oracle to the
trace of external requests made plus the tool's final result.
-/

set_option autoImplicit false

namespace SsmEnv

/-- Models aws_sdk_ssm::types::Parameter, restricted to the two fields that
main.rs ever reads (`name` and `value`, both optional in the SDK type). -/
structure Parameter where
  name : Option String
  value : Option String
deriving DecidableEq

/-- Models the struct Export of main.rs: the environment-variable name and
the optional SSM parameter name parsed from an ENV[=PARAM] token. -/
structure Export where
  env : String
  param : Option String
deriving DecidableEq

/-- Models the parsed command line (struct Args of main.rs). The Rust field
`export` is called `exports` here because `export` is a Lean keyword; field
order is: no_decrypt, ignore, exports, export_path, utility, arguments. -/
structure Args where
  no_decrypt : Bool
  ignore : Bool
  exports : List Export
  export_path : List String
  utility : String
  arguments : List String
deriving DecidableEq

/-- Models Args::parameter_names: for each --export flag, its parameter
name if given, otherwise its environment-variable name. -/
def Args.parameter_names (a : Args) : List String :=
  a.exports.map (fun e => e.param.getD e.env)

/-- Models Args::export_names up to the point of collecting into a HashMap:
the ordered (param, env) pairs of the flags that carry an explicit param.
The HashMap itself is modelled by `hmGet` below. -/
def Args.export_names (a : Args) : List (String × String) :=
  a.exports.filterMap (fun e => e.param.map (fun p => (p, e.env)))

/-- One insertion step of building a Rust HashMap from an entry sequence:
a later binding for the same key overwrites an earlier one. -/
def hmStep (k : String) (acc : Option String) (kv : String × String) : Option String :=
  if kv.1 = k then some kv.2 else acc

/-- Models HashMap::get on the map collected from the entry list `m`:
since HashMap::insert overwrites, the last binding for `k` wins. -/
def hmGet (m : List (String × String)) (k : String) : Option String :=
  m.foldl (hmStep k) none

/-- Models filter_export of main.rs: keep a parameter only if both name and
value are present; the environment name is the rename-table image of the
store key when present, else the store key itself. -/
def filter_export (p : Parameter) (exports : List (String × String)) :
    Option (String × String) :=
  match p.name, p.value with
  | some name, some value => some ((hmGet exports name).getD name, value)
  | _, _ => none

/-- Models `path.ends_with('/')` from filter_export_path: whether the last
character of the string is a slash. -/
def endsWithSlash (s : String) : Bool :=
  match s.toList.getLast? with
  | some c => c = '/'
  | none => false

/-- The prefix actually stripped by filter_export_path: the path itself if
it already ends with '/', otherwise the path with '/' appended. -/
def normPath (path : String) : String :=
  if endsWithSlash path then path else path ++ "/"

/-- Boolean list-prefix test (models the prefix test inside Rust's
str::strip_prefix, at the level of character lists). -/
def listPre : List Char → List Char → Bool
  | [], _ => true
  | _ :: _, [] => false
  | a :: as, b :: bs => a == b && listPre as bs

/-- Models Rust str::strip_prefix: `some` of the remainder when `pre` is a
prefix of `s`, otherwise `none`. -/
def dropPre (s pre : String) : Option String :=
  if listPre pre.toList s.toList then
    some (String.mk (s.toList.drop pre.toList.length))
  else
    none

/-- Models filter_export_path of main.rs: keep a parameter only if both
name and value are present; the environment name is the store key with the
normalized path stripped off, or the full key if the path is not a prefix
of it. -/
def filter_export_path (p : Parameter) (path : String) : Option (String × String) :=
  match p.name, p.value with
  | some name, some value => some ((dropPre name (normPath path)).getD name, value)
  | _, _ => none

/-- Models the impl FromStr for Export: split the token at the first '='
into environment name and parameter name; a token without '=' is the
environment name alone. The split on the first occurrence is implemented
on character lists, as Rust's str::split_once('=') behaves. -/
def splitOnceEq : List Char → Option (List Char × List Char)
  | [] => none
  | x :: xs =>
    if x = '=' then some ([], xs)
    else (splitOnceEq xs).map (fun p => (x :: p.1, p.2))

/-- Models Export::from_str (the Err type &'static str becomes String). -/
def Export.from_str (s : String) : Except String Export :=
  match splitOnceEq s.toList with
  | some (env, param) => .ok ⟨String.mk env, some (String.mk param)⟩
  | none => .ok ⟨s, none⟩

/-- An external request made by main: the two SSM calls it issues, the
describe-parameters call the SSM client also offers (never issued by this
main), and the spawn of the child process carrying the utility, its
arguments, the ignore (env_clear) flag and the resolved parameter list. -/
inductive Event where
  | getParameters : List String → Bool → Event
  | getParametersByPath : String → Bool → Event
  | describeParameters : Event
  | spawn : String → List String → Bool → List (String × String) → Event
deriving DecidableEq

/-- Whether an event is the spawn of the child process. -/
def Event.isSpawn : Event → Bool
  | .spawn _ _ _ _ => true
  | _ => false

/-- Whether an event is a batch get-parameters request. -/
def Event.isGetParams : Event → Bool
  | .getParameters _ _ => true
  | _ => false

/-- The SSM client as an oracle: each operation main.rs could invoke,
mapping the request to either an error or a response. The `parameters`
field of both SDK responses is Option<Vec<Parameter>>, hence
`Option (List Parameter)`. -/
structure Store where
  get_parameters : List String → Bool → Except String (Option (List Parameter))
  get_parameters_by_path : String → Bool → Except String (Option (List Parameter))
  describe_parameters : Except String (List String)

/-- The child process as an oracle: the outcome of `spawn()` and, when the
spawn succeeded, the outcome of `wait()` — `some c` a normal exit with code
c, `none` termination by signal (no exit code obtainable). -/
structure Child where
  spawn_result : Except String Unit
  wait_result : Except String (Option Int)

/-- Models the for-loop over args.export_path in main: each path issues one
get_parameters_by_path request; an error aborts at once (the `?`), a
response is filtered through filter_export_path and appended. -/
def fetchByPaths (store : Store) (decrypt : Bool) :
    List String → List (String × String) → List Event →
    List Event × Except String (List (String × String))
  | [], acc, trace => (trace, .ok acc)
  | path :: rest, acc, trace =>
    let trace2 := trace ++ [Event.getParametersByPath path decrypt]
    match store.get_parameters_by_path path decrypt with
    | .error e => (trace2, .error e)
    | .ok resp =>
      fetchByPaths store decrypt rest
        (acc ++ (resp.getD []).filterMap (fun p => filter_export_path p path)) trace2

/-- Models lines 79–112 of main: if the parameter-name list is non-empty,
one batch get_parameters request (with_decryption = !no_decrypt) filtered
through filter_export; then the per-path loop. Returns the request trace
and either the first error or the accumulated (env, value) pairs. -/
def resolveParams (args : Args) (store : Store) :
    List Event × Except String (List (String × String)) :=
  let decrypt := !args.no_decrypt
  let names := args.parameter_names
  if names.isEmpty then
    fetchByPaths store decrypt args.export_path [] []
  else
    let exports := args.export_names
    let trace := [Event.getParameters names decrypt]
    match store.get_parameters names decrypt with
    | .error e => (trace, .error e)
    | .ok resp =>
      fetchByPaths store decrypt args.export_path
        ((resp.getD []).filterMap (fun p => filter_export p exports)) trace

/-- Models `u8::try_from` on the i32 exit code. -/
def u8TryFrom (c : Int) : Option Nat :=
  if 0 ≤ c ∧ c ≤ 255 then some c.toNat else none

/-- Models main end to end: resolve the parameters (aborting on the first
store error), then spawn the child (recorded in the trace with the
environment plan), wait, and map the exit status as
`code().unwrap_or(1)` followed by `u8::try_from(code).unwrap_or(1)`. -/
def runMain (args : Args) (store : Store) (child : Child) :
    List Event × Except String Nat :=
  match resolveParams args store with
  | (trace, .error e) => (trace, .error e)
  | (trace, .ok params) =>
    let trace2 := trace ++ [Event.spawn args.utility args.arguments args.ignore params]
    match child.spawn_result with
    | .error e => (trace2, .error e)
    | .ok _ =>
      match child.wait_result with
      | .error e => (trace2, .error e)
      | .ok status => (trace2, .ok ((u8TryFrom (status.getD 1)).getD 1))

/-- Models what the child process observes for an environment variable,
given tokio::process::Command semantics for lines 114–119 of main: the
command starts from the inherited environment `base`, `env_clear()` empties
it when ignore is set, and `envs(params)` then inserts every resolved pair
(a later pair for the same name overwrites an earlier one, as in a map). -/
def childEnvLookup (ignore : Bool) (base : String → Option String)
    (params : List (String × String)) (n : String) : Option String :=
  match hmGet params n with
  | some v => some v
  | none => if ignore then none else base n

/-! Concrete fixtures used by the closed theorems below. Args field order:
no_decrypt, ignore, exports, export_path, utility, arguments. -/

/-- An invocation with no --export and no --export-path flags. -/
def argsN : Args := ⟨false, false, [], [], "env", []⟩

/-- An invocation with the single flag --export FOO. -/
def argsE : Args := ⟨false, false, [⟨"FOO", none⟩], [], "env", []⟩

/-- An invocation with the single flag --export HOST=DB_HOST. -/
def argsK : Args := ⟨false, false, [⟨"HOST", some "DB_HOST"⟩], [], "env", []⟩

/-- An invocation with --export FOO --export BAR=FOO: the second flag names
the first flag's store key as its source. -/
def args3 : Args := ⟨false, false, [⟨"FOO", none⟩, ⟨"BAR", some "FOO"⟩], [], "env", []⟩

/-- An invocation with --export A=K --export B=K: two flags with the same
source key and different environment names. -/
def args4 : Args := ⟨false, false, [⟨"A", some "K"⟩, ⟨"B", some "K"⟩], [], "env", []⟩

/-- An SSM client that denies every operation. -/
def storeDenied : Store :=
  ⟨fun _ _ => .error "AccessDenied", fun _ _ => .error "AccessDenied",
   .error "AccessDenied"⟩

/-- An SSM client that answers every operation with an empty result. -/
def stOk : Store := ⟨fun _ _ => .ok (some []), fun _ _ => .ok (some []), .ok []⟩

/-- A child that spawns and exits normally with code 0. -/
def childOk0 : Child := ⟨.ok (), .ok (some 0)⟩

/-- A child that spawns and exits normally with code 7. -/
def child7 : Child := ⟨.ok (), .ok (some 7)⟩

/-- A child that spawns and exits normally with code 256. -/
def child256 : Child := ⟨.ok (), .ok (some 256)⟩

/-- A child that spawns and exits normally with code 300. -/
def child300 : Child := ⟨.ok (), .ok (some 300)⟩

/-- A child that spawns and is killed by a signal (no exit code). -/
def childSig : Child := ⟨.ok (), .ok none⟩

/-- A base (inherited) environment containing only HOME. -/
def baseEnv : String → Option String :=
  fun n => if n = "HOME" then some "/root" else none

/-- A resolved environment plan containing only FOO. -/
def plan1 : List (String × String) := [("FOO", "1")]

/-! Helper lemmas about the HashMap model. -/

theorem hmFold_const (k : String) (m : List (String × String))
    (h : ∀ kv ∈ m, kv.1 ≠ k) : ∀ init, m.foldl (hmStep k) init = init := by
  induction m with
  | nil => intro init; rfl
  | cons kv rest ih =>
    intro init
    have hk : kv.1 ≠ k := h kv (List.mem_cons_self kv rest)
    have hrest : ∀ kv2 ∈ rest, kv2.1 ≠ k := fun kv2 hm => h kv2 (List.mem_cons_of_mem kv hm)
    simp only [List.foldl_cons, hmStep, if_neg hk]
    exact ih hrest init

theorem hmFold_isSome (k : String) (m : List (String × String)) :
    ∀ init : Option String, init.isSome → (m.foldl (hmStep k) init).isSome := by
  induction m with
  | nil => intro init h; exact h
  | cons kv rest ih =>
    intro init h
    simp only [List.foldl_cons, hmStep]
    by_cases hk : kv.1 = k
    · simp only [if_pos hk]
      exact ih (some kv.2) rfl
    · simp only [if_neg hk]
      exact ih init h

theorem hmGet_eq_none (k : String) (m : List (String × String))
    (h : ∀ kv ∈ m, kv.1 ≠ k) : hmGet m k = none :=
  hmFold_const k m h none

theorem hmGet_isSome_of_mem (k : String) (m : List (String × String))
    (h : k ∈ m.map Prod.fst) : (hmGet m k).isSome := by
  induction m with
  | nil => simp at h
  | cons kv rest ih =>
    simp only [List.map_cons, List.mem_cons] at h
    simp only [hmGet, List.foldl_cons, hmStep]
    rcases h with h | h
    · rw [if_pos h.symm]
      exact hmFold_isSome k rest (some kv.2) rfl
    · by_cases hk : kv.1 = k
      · simp only [if_pos hk]
        exact hmFold_isSome k rest (some kv.2) rfl
      · simp only [if_neg hk]
        exact ih h

theorem hmGet_eq_none_iff (k : String) (m : List (String × String)) :
    hmGet m k = none ↔ k ∉ m.map Prod.fst := by
  constructor
  · intro h hmem
    have := hmGet_isSome_of_mem k m hmem
    rw [h] at this
    simp at this
  · intro h
    refine hmGet_eq_none k m ?_
    intro kv hkv hk
    exact h (hk ▸ List.mem_map_of_mem Prod.fst hkv)

/-! Helper lemmas about the traces of the embedded main. -/

theorem fetchByPaths_trace (store : Store) (d : Bool) :
    ∀ (paths : List String) (acc : List (String × String)) (tr : List Event),
      ∃ add, (fetchByPaths store d paths acc tr).1 = tr ++ add ∧
        ∀ ev ∈ add, ∃ p, ev = Event.getParametersByPath p d := by
  intro paths
  induction paths with
  | nil =>
    intro acc tr
    exact ⟨[], by simp [fetchByPaths], by simp⟩
  | cons path rest ih =>
    intro acc tr
    simp only [fetchByPaths]
    rcases hq : store.get_parameters_by_path path d with e | resp
    · refine ⟨[Event.getParametersByPath path d], rfl, ?_⟩
      intro ev hev
      simp only [List.mem_singleton] at hev
      exact ⟨path, hev⟩
    · obtain ⟨add, h1, h2⟩ :=
        ih (acc ++ (resp.getD []).filterMap (fun p => filter_export_path p path))
          (tr ++ [Event.getParametersByPath path d])
      refine ⟨Event.getParametersByPath path d :: add, ?_, ?_⟩
      · rw [h1]; simp
      · intro ev hev
        rcases List.mem_cons.mp hev with h | h
        · exact ⟨path, h⟩
        · exact h2 ev h

theorem resolveParams_trace (args : Args) (store : Store) :
    ∀ ev ∈ (resolveParams args store).1,
      (∃ p d, ev = Event.getParametersByPath p d) ∨
        ev = Event.getParameters args.parameter_names (!args.no_decrypt) := by
  intro ev hev
  simp only [resolveParams] at hev
  by_cases hn : args.parameter_names.isEmpty
  · rw [if_pos hn] at hev
    obtain ⟨add, h1, h2⟩ := fetchByPaths_trace store (!args.no_decrypt) args.export_path [] []
    rw [h1] at hev
    simp only [List.nil_append] at hev
    obtain ⟨p, hp⟩ := h2 ev hev
    exact Or.inl ⟨p, !args.no_decrypt, hp⟩
  · rw [if_neg hn] at hev
    rcases hq : store.get_parameters args.parameter_names (!args.no_decrypt) with e | resp
    · rw [hq] at hev
      simp only [List.mem_singleton] at hev
      exact Or.inr hev
    · rw [hq] at hev
      obtain ⟨add, h1, h2⟩ :=
        fetchByPaths_trace store (!args.no_decrypt) args.export_path
          ((resp.getD []).filterMap
            (fun p => filter_export p args.export_names))
          [Event.getParameters args.parameter_names (!args.no_decrypt)]
      rw [h1] at hev
      rcases List.mem_append.mp hev with h | h
      · simp only [List.mem_singleton] at h
        exact Or.inr h
      · obtain ⟨p, hp⟩ := h2 ev h
        exact Or.inl ⟨p, !args.no_decrypt, hp⟩

theorem resolveParams_no_spawn (args : Args) (store : Store) :
    (resolveParams args store).1.all (fun ev => !ev.isSpawn) = true := by
  rw [List.all_eq_true]
  intro ev hev
  rcases resolveParams_trace args store ev hev with ⟨p, d, h⟩ | h <;>
    simp [h, Event.isSpawn]

theorem runMain_trace_ok (args : Args) (store : Store) (child : Child)
    (tr : List Event) (params : List (String × String))
    (h : resolveParams args store = (tr, .ok params)) :
    (runMain args store child).1 =
      tr ++ [Event.spawn args.utility args.arguments args.ignore params] := by
  unfold runMain
  rw [h]
  obtain ⟨sr, wr⟩ := child
  rcases sr with e | u
  · rfl
  · rcases wr with e | st <;> rfl

theorem runMain_code (args : Args) (store : Store) (child : Child)
    (tr : List Event) (params : List (String × String))
    (h : resolveParams args store = (tr, .ok params))
    (hs : child.spawn_result = .ok ())
    (st : Option Int) (hw : child.wait_result = .ok st) :
    (runMain args store child).2 = .ok ((u8TryFrom (st.getD 1)).getD 1) := by
  unfold runMain
  rw [h, hs, hw]

/-- Every entry of the rename table built from `l` has a key other than `k`
when no export in `l` names `k` as its parameter. -/
theorem export_names_key (l : List Export) (k : String)
    (h : ∀ e2 ∈ l, e2.param ≠ some k) :
    ∀ kv ∈ l.filterMap (fun e => e.param.map (fun q => (q, e.env))), kv.1 ≠ k := by
  intro kv hkv
  rw [List.mem_filterMap] at hkv
  obtain ⟨e2, he2, hfe⟩ := hkv
  rcases hp2 : e2.param with _ | q
  · rw [hp2] at hfe; simp at hfe
  · rw [hp2] at hfe
    simp only [Option.map_some'] at hfe
    intro hk
    refine h e2 he2 ?_
    rw [hp2]
    have hqe : (q, e2.env) = kv := Option.some.inj hfe
    rw [← hqe] at hk
    exact congrArg some hk

theorem listPre_append (a b : List Char) : listPre a (a ++ b) = true := by
  induction a with
  | nil => rfl
  | cons x xs ih => simp [listPre, ih]

theorem splitOnceEq_of_not_mem (l : List Char) (h : '=' ∉ l) :
    splitOnceEq l = none := by
  induction l with
  | nil => rfl
  | cons x xs ih =>
    have hx : x ≠ '=' := fun hx => h (hx ▸ List.mem_cons_self x xs)
    have hxs : '=' ∉ xs := fun hm => h (List.mem_cons_of_mem x hm)
    simp [splitOnceEq, hx, ih hxs]

/-- Claim C1 (counterexample): with no --export and no --export-path flags
and an SSM client that denies every operation — enumeration
(describe_parameters) included — the embedded main performs no store
request at all, spawns the child with an empty resolved-parameter list and
returns the child's exit code 0. The claimed enumeration fallback does not
exist in this code, and the claimed non-zero abort without spawning on a
denied enumeration does not happen. -/
theorem enumeration_fallback_cex :
    runMain argsN storeDenied childOk0 =
      ([Event.spawn "env" [] false []], .ok 0) ∧
    storeDenied.describe_parameters = .error "AccessDenied" :=
  ⟨rfl, rfl⟩

/-- Claim C1 (amended): when no export specs and no export paths are
supplied, the tool contacts the parameter store not at all — the resolver
issues no request and yields an empty plan, and the only external event of
the whole run is the spawn of the child with an empty resolved-parameter
list. -/
theorem no_exports_no_requests (args : Args) (store : Store) (child : Child)
    (h1 : args.exports = []) (h2 : args.export_path = []) :
    resolveParams args store = ([], .ok []) ∧
    (runMain args store child).1 =
      [Event.spawn args.utility args.arguments args.ignore []] := by
  have hres : resolveParams args store = ([], .ok []) := by
    simp [resolveParams, Args.parameter_names, h1, h2, fetchByPaths]
  refine ⟨hres, ?_⟩
  rw [runMain_trace_ok args store child [] [] hres]
  rfl

/-- Claim C1 (amended, witness): the no-flags invocation against the
empty-result store makes no request and only spawns. -/
theorem no_exports_no_requests_witness :
    resolveParams argsN stOk = ([], .ok []) ∧
    (runMain argsN stOk childOk0).1 = [Event.spawn "env" [] false []] :=
  no_exports_no_requests argsN stOk childOk0 rfl rfl

/-- Claim C2 (counterexample): a child that exits normally with code 256
does not get its code propagated — the tool exits 1 (u8::try_from fails
and unwrap_or(1) applies), contradicting verbatim propagation for every
normal exit code. -/
theorem exit_code_verbatim_cex :
    (runMain argsN stOk child256).2 = .ok 1 ∧
    (runMain argsN stOk child256).2 ≠ .ok 256 := by
  refine ⟨rfl, ?_⟩
  intro h
  rw [show (runMain argsN stOk child256).2 = Except.ok 1 from rfl] at h
  injection h with h2
  exact absurd h2 (by decide)

/-- Claim C2 (amended): after a successful resolution and spawn, a child
exiting normally with a code in 0..=255 has that code propagated verbatim
as the tool's exit code, and a child killed by a signal (no exit code
obtainable) yields tool exit code 1. -/
theorem exit_code_propagation (args : Args) (store : Store) (child : Child)
    (params : List (String × String))
    (hres : (resolveParams args store).2 = .ok params)
    (hspawn : child.spawn_result = .ok ()) :
    (∀ c : Int, child.wait_result = .ok (some c) → 0 ≤ c → c ≤ 255 →
        (runMain args store child).2 = .ok c.toNat) ∧
    (child.wait_result = .ok none → (runMain args store child).2 = .ok 1) := by
  rcases hrp : resolveParams args store with ⟨tr, res⟩
  rw [hrp] at hres
  dsimp only at hres
  subst hres
  constructor
  · intro c hw h0 h255
    rw [runMain_code args store child tr params hrp hspawn (some c) hw]
    simp [u8TryFrom, h0, h255]
  · intro hw
    rw [runMain_code args store child tr params hrp hspawn none hw]
    rfl

/-- Claim C2 (amended, witness): a child exiting 7 yields tool exit 7, and
a signal-killed child yields tool exit 1. -/
theorem exit_code_propagation_witness :
    (runMain argsN stOk child7).2 = .ok 7 ∧
    (runMain argsN stOk childSig).2 = .ok 1 :=
  ⟨(exit_code_propagation argsN stOk child7 [] rfl rfl).1 7 rfl (by decide)
      (by decide),
   (exit_code_propagation argsN stOk childSig [] rfl rfl).2 rfl⟩

/-- Claim C10: a child exiting normally with a code outside 0..=255 (not
representable as u8) yields tool exit code 1 instead of the child's code. -/
theorem out_of_range_exit_one (args : Args) (store : Store) (child : Child)
    (params : List (String × String))
    (hres : (resolveParams args store).2 = .ok params)
    (hspawn : child.spawn_result = .ok ())
    (c : Int) (hw : child.wait_result = .ok (some c))
    (hout : c < 0 ∨ 255 < c) :
    (runMain args store child).2 = .ok 1 := by
  rcases hrp : resolveParams args store with ⟨tr, res⟩
  rw [hrp] at hres
  dsimp only at hres
  subst hres
  rw [runMain_code args store child tr params hrp hspawn (some c) hw]
  have hno : ¬ (0 ≤ c ∧ c ≤ 255) := by
    rcases hout with h | h <;> omega
  simp [u8TryFrom, hno]

/-- Claim C10 (witness): a child exiting with code 300 yields tool exit 1. -/
theorem out_of_range_exit_one_witness :
    (runMain argsN stOk child300).2 = .ok 1 :=
  out_of_range_exit_one argsN stOk child300 [] rfl rfl 300 rfl (by decide)

/-- Claim C3 (counterexample): with --export FOO --export BAR=FOO, the
spec ⟨FOO, no source⟩ has store key FOO, yet the resolved parameter FOO is
exported as environment variable BAR, not FOO — the other flag's rename
entry captures it, so the env name does not equal the store key. -/
theorem no_alias_identity_cex :
    filter_export ⟨some "FOO", some "10.0.0.1"⟩ args3.export_names =
      some ("BAR", "10.0.0.1") ∧
    ("BAR" : String) ≠ "FOO" :=
  ⟨rfl, by decide⟩

/-- Claim C3 (amended): for every ExportSpec given without a source, and
every resolved parameter whose store key matches that spec, the resulting
environment variable name equals the store key unchanged — provided no
ExportSpec of the invocation names that store key as its source (i.e. the
key is absent from the rename table). -/
theorem no_alias_identity (args : Args) (e : Export) (v : String)
    (_he : e ∈ args.exports) (_hp : e.param = none)
    (hno : ∀ e2 ∈ args.exports, e2.param ≠ some e.env) :
    filter_export ⟨some e.env, some v⟩ args.export_names = some (e.env, v) := by
  have h0 : hmGet args.export_names e.env = none :=
    hmGet_eq_none e.env args.export_names
      (export_names_key args.exports e.env hno)
  simp [filter_export, h0]

/-- Claim C3 (amended, witness): with --export FOO alone, the resolved
parameter FOO is exported as FOO. -/
theorem no_alias_identity_witness :
    filter_export ⟨some "FOO", some "10.0.0.1"⟩ argsE.export_names =
      some ("FOO", "10.0.0.1") :=
  no_alias_identity argsE ⟨"FOO", none⟩ "10.0.0.1" (by decide) rfl (by decide)

/-- Claim C4 (counterexample): with --export A=K --export B=K, the spec
⟨A, source K⟩ specifies override A for store key K, yet the resolved
parameter K is exported as B — building the HashMap rename table lets the
later binding for K overwrite the earlier one. -/
theorem alias_override_cex :
    filter_export ⟨some "K", some "v"⟩ args4.export_names = some ("B", "v") ∧
    ("B" : String) ≠ "A" :=
  ⟨rfl, by decide⟩

/-- Claim C4 (amended): for every ExportSpec given with a source, and
every resolved parameter whose store key matches that spec, the resulting
environment variable name equals the specified override, regardless of the
store key's literal text — provided the spec is the last one of the
invocation naming that store key as its source (with duplicate sources the
last flag wins). -/
theorem alias_override (args : Args) (e : Export) (p v : String)
    (hp : e.param = some p)
    (l1 l2 : List Export) (hsplit : args.exports = l1 ++ e :: l2)
    (hlast : ∀ e2 ∈ l2, e2.param ≠ some p) :
    filter_export ⟨some p, some v⟩ args.export_names = some (e.env, v) := by
  have hfm : args.export_names =
      l1.filterMap (fun e => e.param.map (fun q => (q, e.env))) ++
        (p, e.env) ::
          l2.filterMap (fun e => e.param.map (fun q => (q, e.env))) := by
    rw [Args.export_names, hsplit, List.filterMap_append, List.filterMap_cons]
    simp [hp]
  have h0 : hmGet args.export_names p = some e.env := by
    rw [hmGet, hfm, List.foldl_append, List.foldl_cons]
    have hstep : hmStep p
        ((l1.filterMap (fun e => e.param.map (fun q => (q, e.env)))).foldl
          (hmStep p) none) (p, e.env) = some e.env := by
      simp [hmStep]
    rw [hstep]
    exact hmFold_const p _ (export_names_key l2 p hlast) (some e.env)
  simp [filter_export, h0]

/-- Claim C4 (amended, witness): with --export HOST=DB_HOST alone, the
resolved parameter DB_HOST is exported as HOST. -/
theorem alias_override_witness :
    filter_export ⟨some "DB_HOST", some "10.0.0.1"⟩ argsK.export_names =
      some ("HOST", "10.0.0.1") :=
  alias_override argsK ⟨"HOST", some "DB_HOST"⟩ "DB_HOST" "10.0.0.1" rfl
    [] [] rfl (by decide)

/-- Claim C5: for a path-prefix export, a returned key that extends the
normalized prefix (the path itself if it ends in '/', else the path with
'/' appended) is exported under the key with that prefix stripped. -/
theorem path_strip (path sfx name v : String)
    (hname : normPath path ++ sfx = name) :
    filter_export_path ⟨some name, some v⟩ path = some (sfx, v) := by
  subst hname
  have htl : (normPath path ++ sfx).toList =
      (normPath path).toList ++ sfx.toList := rfl
  have hpre : listPre (normPath path).toList (normPath path ++ sfx).toList =
      true := by
    rw [htl]
    exact listPre_append _ _
  have hdrop : dropPre (normPath path ++ sfx) (normPath path) = some sfx := by
    rw [dropPre, if_pos hpre, htl, List.drop_left]
    rfl
  simp [filter_export_path, hdrop]

/-- Claim C5 (witness): for PathSpec "/app/" and returned key
"/app/db/host" the exported name is "db/host", and for PathSpec "/app"
(no trailing separator) and the same key it is also "db/host". -/
theorem path_strip_witness :
    filter_export_path ⟨some "/app/db/host", some "10.0.0.1"⟩ "/app/" =
      some ("db/host", "10.0.0.1") ∧
    filter_export_path ⟨some "/app/db/host", some "10.0.0.1"⟩ "/app" =
      some ("db/host", "10.0.0.1") :=
  ⟨path_strip "/app/" "db/host" "/app/db/host" "10.0.0.1" rfl,
   path_strip "/app" "db/host" "/app/db/host" "10.0.0.1" rfl⟩

/-- Claim C6: with --ignore set, the child environment is exactly the
resolved plan (an inherited variable is invisible unless its name is a
resolved parameter's); with --ignore unset, every inherited variable stays
visible and is overridden exactly where a resolved name collides. -/
theorem ignore_env_semantics (base : String → Option String)
    (params : List (String × String)) (n : String) :
    (childEnvLookup true base params n = hmGet params n) ∧
    (n ∉ params.map Prod.fst → childEnvLookup true base params n = none) ∧
    (n ∉ params.map Prod.fst → childEnvLookup false base params n = base n) ∧
    (n ∈ params.map Prod.fst →
      childEnvLookup false base params n = hmGet params n) := by
  refine ⟨?_, ?_, ?_, ?_⟩
  · rcases h : hmGet params n with _ | v <;> simp [childEnvLookup, h]
  · intro hn
    have h0 : hmGet params n = none := (hmGet_eq_none_iff n params).mpr hn
    simp [childEnvLookup, h0]
  · intro hn
    have h0 : hmGet params n = none := (hmGet_eq_none_iff n params).mpr hn
    simp [childEnvLookup, h0]
  · intro hn
    have h0 := hmGet_isSome_of_mem n params hn
    rcases h : hmGet params n with _ | v
    · rw [h] at h0; simp at h0
    · simp [childEnvLookup, h]

/-- Claim C6 (witness): with the plan FOO=1 and inherited HOME=/root, the
ignore-mode child sees no HOME, the inherit-mode child still sees HOME,
and FOO resolves from the plan in inherit mode. -/
theorem ignore_env_semantics_witness :
    childEnvLookup true baseEnv plan1 "HOME" = none ∧
    childEnvLookup false baseEnv plan1 "HOME" = baseEnv "HOME" ∧
    childEnvLookup false baseEnv plan1 "FOO" = hmGet plan1 "FOO" :=
  ⟨(ignore_env_semantics baseEnv plan1 "HOME").2.1 (by decide),
   (ignore_env_semantics baseEnv plan1 "HOME").2.2.1 (by decide),
   (ignore_env_semantics baseEnv plan1 "FOO").2.2.2 (by decide)⟩

/-- Claim C7: whenever a remote store call fails during resolution (the
batch get or any per-path query returns an error), the whole invocation
aborts with that error and the child process is never spawned — the run
trace contains no spawn event. -/
theorem store_failure_aborts (args : Args) (store : Store) (child : Child)
    (e : String) (h : (resolveParams args store).2 = .error e) :
    (runMain args store child).2 = .error e ∧
    (runMain args store child).1.all (fun ev => !ev.isSpawn) = true := by
  rcases hrp : resolveParams args store with ⟨tr, res⟩
  rw [hrp] at h
  dsimp only at h
  subst h
  have hns := resolveParams_no_spawn args store
  rw [hrp] at hns
  constructor
  · unfold runMain
    rw [hrp]
  · unfold runMain
    rw [hrp]
    exact hns

/-- Claim C7 (witness): with --export FOO against a store that denies the
batch get, the tool aborts with the store's error and never spawns. -/
theorem store_failure_aborts_witness :
    (runMain argsE storeDenied childOk0).2 = .error "AccessDenied" ∧
    (runMain argsE storeDenied childOk0).1.all (fun ev => !ev.isSpawn) =
      true :=
  store_failure_aborts argsE storeDenied childOk0 "AccessDenied" rfl

/-- Claim C8 (counterexample): with --export A=K --export B=K, the batch
get-parameters request carries the name list ["K", "K"] — the specs' store
keys in flag order, not a deduplicated list. -/
theorem dedup_request_cex :
    (resolveParams args4 stOk).1 = [Event.getParameters ["K", "K"] true] ∧
    ¬ (["K", "K"] : List String).Nodup :=
  ⟨rfl, by decide⟩

/-- Claim C8 (amended): when at least one ExportSpec is supplied, the
resolver issues a single batch get-parameters request — the first traced
event, and the only get-parameters event of the resolution — whose name
list is the specs' store keys in flag order (each spec contributing its
explicit source key, or its env name when no source is given; duplicates
are not removed) and whose decryption flag is the negation of
--no-decrypt. -/
theorem single_batch_request (args : Args) (store : Store)
    (h : args.parameter_names ≠ []) :
    (resolveParams args store).1.head? =
      some (Event.getParameters
        (args.exports.map (fun e => e.param.getD e.env)) (!args.no_decrypt)) ∧
    (resolveParams args store).1.countP (fun ev => ev.isGetParams) = 1 := by
  have hne : args.parameter_names.isEmpty = false := by
    rcases hn : args.parameter_names with _ | ⟨a, l⟩
    · exact absurd hn h
    · rfl
  have hev : Event.isGetParams
      (Event.getParameters args.parameter_names (!args.no_decrypt)) = true :=
    rfl
  rcases hq : store.get_parameters args.parameter_names (!args.no_decrypt)
    with e | resp
  · have hrp : resolveParams args store =
        ([Event.getParameters args.parameter_names (!args.no_decrypt)],
          .error e) := by
      simp only [resolveParams, hne, Bool.false_eq_true, if_false, hq]
    rw [hrp]
    exact ⟨rfl, rfl⟩
  · obtain ⟨add, h1, h2⟩ :=
      fetchByPaths_trace store (!args.no_decrypt) args.export_path
        ((resp.getD []).filterMap (fun p => filter_export p args.export_names))
        [Event.getParameters args.parameter_names (!args.no_decrypt)]
    have hrp : (resolveParams args store).1 =
        Event.getParameters args.parameter_names (!args.no_decrypt) :: add := by
      simp only [resolveParams, hne, Bool.false_eq_true, if_false, hq]
      rw [h1]
      rfl
    rw [hrp]
    refine ⟨rfl, ?_⟩
    rw [List.countP_cons, hev, if_pos rfl, List.countP_eq_zero.mpr]
    intro ev hevm
    obtain ⟨p, hp⟩ := h2 ev hevm
    rw [hp]
    simp [Event.isGetParams]

/-- Claim C8 (amended, witness): with --export FOO, the one traced request
is get-parameters for ["FOO"] with decryption on. -/
theorem single_batch_request_witness :
    (resolveParams argsE storeDenied).1.head? =
      some (Event.getParameters ["FOO"] true) ∧
    (resolveParams argsE storeDenied).1.countP (fun ev => ev.isGetParams) =
      1 :=
  single_batch_request argsE storeDenied (by decide)

/-- Claim C9: parsing an --export token never fails — every string yields
Ok; a token containing '=' splits at the first '=' into env name and
source (so "A=B=C" yields env "A" and source "B=C"), and a token without
'=' becomes the env name with no source. -/
theorem from_str_total :
    (∀ s : String, ∃ ex : Export, Export.from_str s = .ok ex) ∧
    (∀ a b : List Char, '=' ∉ a →
      splitOnceEq (a ++ '=' :: b) = some (a, b)) ∧
    Export.from_str "A=B=C" = .ok ⟨"A", some "B=C"⟩ ∧
    (∀ s : String, '=' ∉ s.toList → Export.from_str s = .ok ⟨s, none⟩) := by
  refine ⟨?_, ?_, rfl, ?_⟩
  · intro s
    rcases h : splitOnceEq s.toList with _ | ⟨env, par⟩
    · exact ⟨⟨s, none⟩, by unfold Export.from_str; rw [h]⟩
    · exact ⟨⟨String.mk env, some (String.mk par)⟩, by
        unfold Export.from_str; rw [h]⟩
  · intro a
    induction a with
    | nil => intro b hm; simp [splitOnceEq]
    | cons x xs ih =>
      intro b hm
      have hx : x ≠ '=' := fun hx => hm (hx ▸ List.mem_cons_self x xs)
      have hxs : '=' ∉ xs := fun h => hm (List.mem_cons_of_mem x h)
      simp [splitOnceEq, hx, ih b hxs]
  · intro s hm
    unfold Export.from_str
    rw [splitOnceEq_of_not_mem s.toList hm]

/-- Claim C9 (witness): a bare token parses to an env name with no source,
and the list-level split finds the first '='. -/
theorem from_str_total_witness :
    Export.from_str "JUST_ENV" = .ok ⟨"JUST_ENV", none⟩ ∧
    splitOnceEq (['A'] ++ '=' :: ['B']) = some (['A'], ['B']) :=
  ⟨from_str_total.2.2.2 "JUST_ENV" (by decide),
   from_str_total.2.1 ['A'] ['B'] (by decide)⟩

end SsmEnv
